import Mathlib

/-!
# Verification of the wisckey value-log garbage collector

A shallow embedding of `db/blob_vlog_gc.cc` (the GC of the value-separated
storage engine): the `ValueLogGCWriteCallback`, the `RewriteLSMHandler` loop,
`Collect`, `Rewrite`, `PickGC`, `BackgroundGC`, `MaybeScheduleGC`, `BGCall` and
`RecordBGError`, together with the pieces of the surrounding system they
depend on (LSM point reads, commit-callback writes, the `ValueHandle` codec,
the version-edit application).  Machine integers (`uint32_t` accumulators and
products) are modelled as `Nat` with explicit reduction modulo `2^32` where
the C++ arithmetic wraps, and the undefined behaviour of C++ integer division
by zero is modelled by `Option`.
-/

namespace Wisckey

/-- The subset of `leveldb::Status` kinds that the GC code distinguishes
(messages are elided; the code only ever branches on the kind). -/
inductive Status where
  | ok
  | notFound
  | corruption
  | ioError
  | invalidArgument
  | nonFatal
  deriving DecidableEq, Repr

/-- `Status::IsNonFatal()`. -/
def Status.isNonFatal : Status → Bool
  | .nonFatal => true
  | _ => false

/-- `Status::ok()`. -/
def Status.isOK : Status → Bool
  | .ok => true
  | _ => false

/-- A background error is fatal when it is neither OK nor NonFatal
(`!bg_error_.ok() && !bg_error_.IsNonFatal()` in `BGCall` and
`MaybeScheduleGC`). -/
def Status.isFatalBG (s : Status) : Bool := !s.isOK && !s.isNonFatal

/-- The LSM value-type tag attached to every LSM entry:
`kTypeDeletion`, `kTypeValue` (inline) and `kTypeValueHandle`. -/
inductive ValueType where
  | typeDeletion
  | typeValue
  | typeValueHandle
  deriving DecidableEq, Repr

/-- `ValueHandle {file_number, offset, size}`: the fixed reference stored in
the LSM in place of a large value.  Equality is structural (the transient
`table_` field used by the GC is not part of the encoding and does not take
part in the comparisons made by the GC code, so it is omitted). -/
structure ValueHandle where
  file_number : Nat
  offset : Nat
  size : Nat
  deriving DecidableEq, Repr

instance : Inhabited ValueHandle := ⟨⟨0, 0, 0⟩⟩

/-- Auxiliary little-endian base-128 varint encoder with explicit fuel
(the fuel makes the definition structurally recursive so that concrete
instances reduce by `rfl`; `fuel ≥ n` always suffices). -/
def putVarintAux : Nat → Nat → List Nat
  | 0, n => [n % 128]
  | fuel + 1, n => if n < 128 then [n] else (n % 128 + 128) :: putVarintAux fuel (n / 128)

/-- `PutVarint`: little-endian, 7 bits per byte, continuation bit in MSB. -/
def putVarint (n : Nat) : List Nat := putVarintAux n n

/-- `GetVarint`: decode a varint from the front of a byte list. -/
def getVarint : List Nat → Option (Nat × List Nat)
  | [] => none
  | b :: rest =>
    if b < 128 then some (b, rest)
    else
      match getVarint rest with
      | some (v, rest') => some (v * 128 + (b - 128), rest')
      | none => none

/-- `PutFixed32`: 4 bytes, little-endian, of `n mod 2^32`. -/
def putFixed32 (n : Nat) : List Nat :=
  [n % 256, n / 256 % 256, n / 256 ^ 2 % 256, n / 256 ^ 3 % 256]

/-- `GetFixed32`: read 4 little-endian bytes. -/
def getFixed32 : List Nat → Option (Nat × List Nat)
  | a :: b :: c :: d :: rest => some (a + 256 * (b + 256 * (c + 256 * d)), rest)
  | _ => none

/-- `ValueHandle::EncodeTo`: `varint(file_number) · fixed32(offset) ·
fixed32(size)`. -/
def ValueHandle.encode (h : ValueHandle) : List Nat :=
  putVarint h.file_number ++ putFixed32 h.offset ++ putFixed32 h.size

/-- `ValueHandle::DecodeFrom`: decode a handle from the front of a byte list,
returning the remaining bytes. -/
def ValueHandle.decodeFrom (bytes : List Nat) : Option (ValueHandle × List Nat) :=
  match getVarint bytes with
  | none => none
  | some (f, rest₁) =>
    match getFixed32 rest₁ with
    | none => none
    | some (off, rest₂) =>
      match getFixed32 rest₂ with
      | none => none
      | some (sz, rest₃) => some (⟨f, off, sz⟩, rest₃)

/-- A handle is representable when its fixed32 fields fit in 32 bits. -/
def ValueHandle.wf (h : ValueHandle) : Prop := h.offset < 2 ^ 32 ∧ h.size < 2 ^ 32

set_option maxRecDepth 4000 in
theorem getVarint_putVarintAux (fuel n : Nat) (hfuel : n ≤ fuel) (rest : List Nat) :
    getVarint (putVarintAux fuel n ++ rest) = some (n, rest) := by
  induction fuel generalizing n with
  | zero =>
    interval_cases n
    simp [putVarintAux, getVarint]
  | succ fuel ih =>
    by_cases h : n < 128
    · simp [putVarintAux, getVarint, h]
    · have hdiv : n / 128 ≤ fuel := by
        have : n / 128 < n := Nat.div_lt_self (by omega) (by omega)
        omega
      have hmod : n % 128 + 128 ≥ 128 := by omega
      simp only [putVarintAux, if_neg h, List.cons_append, getVarint]
      rw [if_neg (by omega), ih _ hdiv]
      have hsub : n % 128 + 128 - 128 = n % 128 := by omega
      simp only [hsub]
      show some (n / 128 * 128 + n % 128, rest) = some (n, rest)
      have := Nat.div_add_mod n 128
      congr 2
      omega

theorem getVarint_putVarint (n : Nat) (rest : List Nat) :
    getVarint (putVarint n ++ rest) = some (n, rest) :=
  getVarint_putVarintAux n n le_rfl rest

theorem getFixed32_putFixed32 (n : Nat) (hn : n < 2 ^ 32) (rest : List Nat) :
    getFixed32 (putFixed32 n ++ rest) = some (n, rest) := by
  simp only [putFixed32, List.cons_append, List.nil_append, getFixed32]
  congr 2
  omega

theorem decodeFrom_encode (h : ValueHandle) (hwf : h.wf) (rest : List Nat) :
    ValueHandle.decodeFrom (h.encode ++ rest) = some (h, rest) := by
  simp only [ValueHandle.encode, List.append_assoc, ValueHandle.decodeFrom,
    getVarint_putVarint, getFixed32_putFixed32 _ hwf.1, getFixed32_putFixed32 _ hwf.2]

/-! ## The LSM as seen by the GC -/

/-- The LSM key space (`Slice` keys). -/
abbrev Key := String

/-- LSM entry bytes. -/
abbrev Bytes := List Nat

/-- The LSM index state, newest entry first (a `Put` prepends; a point read
takes the newest entry for the key, which is how the memtable/SST merge
resolves versions). -/
abbrev LSM := List (Key × ValueType × Bytes)

/-- `DBImpl::Put` as a state update: the new entry shadows older ones. -/
def lsmPut (lsm : LSM) (k : Key) (vt : ValueType) (bytes : Bytes) : LSM :=
  (k, vt, bytes) :: lsm

/-- Modelled from the spec: the LSM point read returning both value bytes and
the value-type tag (`DBImpl::Get(options, key, value, &type)`; `db_impl.cc` is
not under `src/`, the spec's interface contract is "point reads that return
both value and value-type tag").  A deletion entry, or an absent key, reads
as NotFound (`none`). -/
def lsmGet (lsm : LSM) (k : Key) : Option (ValueType × Bytes) :=
  match lsm.find? (fun e => e.1 == k) with
  | none => none
  | some (_, vt, bytes) => if vt = .typeDeletion then none else some (vt, bytes)

/-! ## `ValueLogGCWriteCallback` (blob_vlog_gc.cc:17-50) -/

/-- `ValueHandle::DecodeFrom` as used by the callback and by `Collect`: the
decode status is ignored by the C++ code, so on a failed decode the
destination keeps its previous contents (`prev`). -/
def decodeOrKeep (bytes : Bytes) (prev : ValueHandle) : ValueHandle :=
  match ValueHandle.decodeFrom bytes with
  | some (h, _) => h
  | none => prev

/-- `ValueLogGCWriteCallback::Callback` (blob_vlog_gc.cc:23-39): re-read the
key with the plain two-argument `Get`; a failed read returns that status
unchanged; otherwise the value bytes are decoded into a default-constructed
`ValueHandle` (the decode status is discarded, and the value-type tag is
never consulted) and compared against the pre-GC handle. -/
def gcWriteCallback (lsm : LSM) (key : Key) (handle : ValueHandle) : Status :=
  match lsmGet lsm key with
  | none => .notFound
  | some (_, bytes) =>
    let current := decodeOrKeep bytes default
    if current = handle then .ok else .invalidArgument

/-- Modelled from the spec: `DBImpl::Write` of a single-`Put` batch gated by a
commit callback (`db_impl.cc` is not under `src/`).  Per the spec, the
callback executes under the LSM commit lock and when it returns non-OK "the
batch is silently dropped, preserving any concurrent user write"; the write
itself then reports success so that the GC rewrite loop gates each record
independently. -/
def lsmWriteWithCallback (lsm : LSM) (k : Key) (vt : ValueType) (bytes : Bytes)
    (cbKey : Key) (cbHandle : ValueHandle) : Status × LSM :=
  if gcWriteCallback lsm cbKey cbHandle = .ok then (.ok, lsmPut lsm k vt bytes)
  else (.ok, lsm)

/-! ## GC data structures (blob_vlog_gc.cc, blob_vlog_impl.h) -/

/-- One record of a vlog file as yielded by the reader iterator during
`Collect`: its key, its value bytes and the iterator's current handle
(`GetValueHandle`), i.e. the record's own position in the candidate file. -/
structure VRecord where
  key : Key
  value : Bytes
  handle : ValueHandle
  deriving DecidableEq, Repr

/-- The accumulators of `GarbageCollection` filled in by `Collect`: the
`uint32_t` totals and discard counters, and the pending live set (the
`ValueBatch` entry paired with its `ValueLogGCWriteCallback(key, handle)`,
kept here as `(key, value, handle)`). -/
structure GCStats where
  totalEntries : Nat
  totalSize : Nat
  discardEntries : Nat
  discardSize : Nat
  live : List (Key × Bytes × ValueHandle)
  deriving DecidableEq, Repr

/-- A freshly constructed `GarbageCollection`. -/
def GCStats.empty : GCStats := ⟨0, 0, 0, 0, []⟩

/-- A `BlobVersionEdit`: files added as `(number, file_size)` and files
deleted as `(number, obsolete_sequence)`. -/
structure VersionEdit where
  adds : List (Nat × Nat)
  deletes : List (Nat × Nat)
  deriving DecidableEq, Repr

/-- The `ValueLogImpl` state the GC interacts with: `ro_files_` (a sorted
`number → file_size` map), `obsolete_files_` (`number → obsolete_sequence`),
`pending_outputs_`, `vlog_file_number_`, the manifest of committed edits, the
LSM contents, and the scheduling state (`gc_pointer_`, `manual_gc_`,
`manual_gc_number`, `bg_error_`).  `latestSequence` stands for the LSM's
`LatestSequence()` answer, constant over one run. -/
structure GCRunState where
  roFiles : List (Nat × Nat)
  obsoleteFiles : List (Nat × Nat)
  pendingOutputs : List Nat
  vlogFileNumber : Nat
  committedEdits : List VersionEdit
  lsm : LSM
  gcPointer : Nat
  manualGC : Bool
  manualGCNumber : Nat
  bgError : Status
  latestSequence : Nat
  deriving DecidableEq, Repr

/-- The environment a single GC run interacts with: the reader iterator the
candidate file yields (`none` when `NewVLogFileIterator` fails), whether
`NewAppendableRandomAccessFile` succeeds, the step from which the atomic
`shutdown_` flag reads true inside the rewrite loop, an injected LSM write
failure, and whether the final `DBImpl::Sync` succeeds. -/
structure GCEnv where
  iterOf : Nat → Option (List VRecord)
  newFileOk : Bool
  shutdownFrom : Option Nat
  lsmWriteFailAt : Option Nat
  lsmSyncOk : Bool

/-- Whether `shutdown_.load()` reads true at rewrite step `i`. -/
def shutdownActive (env : GCEnv) (i : Nat) : Bool :=
  match env.shutdownFrom with
  | some j => decide (j ≤ i)
  | none => false

/-- `std::map::emplace` on a sorted association list: inserts in key order
and keeps the existing mapping when the key is already present. -/
def mapEmplace : List (Nat × Nat) → Nat × Nat → List (Nat × Nat)
  | [], e => [e]
  | (m, v) :: rest, (n, w) =>
    if n < m then (n, w) :: (m, v) :: rest
    else if n = m then (m, v) :: rest
    else (m, v) :: mapEmplace rest (n, w)

/-- Modelled from the spec: `ValueLogImpl::LogAndApply` (defined outside
`src/`): append the edit to the manifest and apply it to the in-memory
version, merging `added` into the live file map and `deleted` into
`obsolete_files` ("merge `added` into `live_files`, merge `deleted` into
`obsolete_files`"). -/
def logAndApply (st : GCRunState) (edit : VersionEdit) : GCRunState :=
  { st with
    roFiles := edit.adds.foldl mapEmplace st.roFiles
    obsoleteFiles := edit.deletes.foldl mapEmplace st.obsoleteFiles
    committedEdits := st.committedEdits ++ [edit] }

/-! ## `PickGC` (blob_vlog_gc.cc:214-233) -/

/-- `ValueLogImpl::PickGC`: starting from `number`, repeatedly take the
lowest `ro_files_` key ≥ `number` (`lower_bound`); if it is absent from
`obsolete_files_` pick it, otherwise restart just above it; return `none`
when the search runs off the end of the map. -/
def pickGCFrom : List (Nat × Nat) → List (Nat × Nat) → Nat → Option Nat
  | [], _, _ => none
  | (m, _) :: rest, obs, n =>
    if m < n then pickGCFrom rest obs n
    else if (obs.map Prod.fst).contains m then pickGCFrom rest obs (m + 1)
    else some m

/-! ## `Collect` (blob_vlog_gc.cc:246-310) -/

/-- The C++ locals of `Collect` that are declared outside the scan loop and
therefore carry state from one iteration to the next: `valueType`,
`handle` and `handle_encoding`. -/
structure CollectRegs where
  valueType : ValueType
  handle : ValueHandle
  encoding : Bytes
  deriving DecidableEq, Repr

/-- The scan loop of `Collect`: for each record, `Get` the key with its type
from the LSM (on NotFound the three register variables keep their previous
contents); decode `handle_encoding` into `handle` only when `valueType` is
`kTypeValueHandle`; bump the `uint32_t` totals; classify the record dead when
the read was NotFound, or the type is not `kTypeValueHandle`, or the decoded
handle differs from the iterator's current handle; otherwise append the
record to the pending `ValueBatch` paired with a callback carrying its key
and the decoded handle. -/
def collectLoop (lsm : LSM) : List VRecord → CollectRegs → GCStats → GCStats
  | [], _, acc => acc
  | r :: rest, regs, acc =>
    let res := lsmGet lsm r.key
    let vt := match res with | some (v, _) => v | none => regs.valueType
    let enc := match res with | some (_, b) => b | none => regs.encoding
    let handle := if vt = .typeValueHandle then decodeOrKeep enc regs.handle else regs.handle
    let current := r.handle
    let te := (acc.totalEntries + 1) % 2 ^ 32
    let ts := (acc.totalSize + current.size) % 2 ^ 32
    if res.isNone ∨ vt ≠ .typeValueHandle ∨ handle ≠ current then
      collectLoop lsm rest ⟨vt, handle, enc⟩
        { acc with totalEntries := te, totalSize := ts
                   discardEntries := (acc.discardEntries + 1) % 2 ^ 32
                   discardSize := (acc.discardSize + current.size) % 2 ^ 32 }
    else
      collectLoop lsm rest ⟨vt, handle, enc⟩
        { acc with totalEntries := te, totalSize := ts
                   live := acc.live ++ [(r.key, r.value, handle)] }

/-- `ValueLogImpl::Collect`: return NonFatal without scanning when the
candidate number is 0 or at least `CurrentFileNumber()`, or when no iterator
can be opened; otherwise scan every record.  The initial contents of the
loop-carried C++ locals: `handle` is default-constructed and
`handle_encoding` is empty; `valueType` is uninitialized in the source and
is fixed arbitrarily here (the scan result does not depend on it for any
well-formed LSM, see `collect_classifies`). -/
def CollectM (st : GCRunState) (env : GCEnv) (number : Nat) : Status × GCStats :=
  if number ≥ st.vlogFileNumber ∨ number = 0 then (.nonFatal, GCStats.empty)
  else
    match env.iterOf number with
    | none => (.nonFatal, GCStats.empty)
    | some recs => (.ok, collectLoop st.lsm recs ⟨.typeValue, default, []⟩ GCStats.empty)

/-! ## `Rewrite` (blob_vlog_gc.cc:324-437) -/

/-- The observable actions of one `Rewrite` run, in program order: creation
of the new vlog file, the batch append, the file sync, the builder finish,
the file close, the in-memory registration in `ro_files_`, each LSM handle
rewrite that is issued, the final LSM WAL sync, and the committed version
edit. -/
inductive GCEvent where
  | newVlogFile (number : Nat)
  | appendBatch (number : Nat)
  | fileSync (number : Nat)
  | builderFinish (number : Nat)
  | fileClose (number : Nat)
  | registerRO (number : Nat)
  | lsmWrite (i : Nat)
  | lsmSync
  | versionEdit (edit : VersionEdit)
  deriving DecidableEq, Repr

/-- Modelled from the spec: the byte length of one encoded vlog record,
`varint(key_len) · varint(value_len) · key · value · crc32c` (the record
codec lives outside `src/`). -/
def liveRecordSize (key : Key) (value : Bytes) : Nat :=
  (putVarint key.length).length + (putVarint value.length).length
    + key.length + value.length + 4

/-- Modelled from the spec: `ValueBatch::Finalize(number, 0)` (defined
outside `src/`) assigns `(file_number, base_offset)` so every handle in the
batch becomes absolute; each pending live record `(key, value, old_handle)`
becomes `(key, new_handle, old_handle)` with consecutive offsets. -/
def finalizeBatch (number : Nat) (offset : Nat) :
    List (Key × Bytes × ValueHandle) → List (Key × ValueHandle × ValueHandle)
  | [] => []
  | (k, v, oldH) :: rest =>
    (k, ⟨number, offset, liveRecordSize k v⟩, oldH)
      :: finalizeBatch number (offset + liveRecordSize k v) rest

/-- The total byte size of the finalized batch (the new file's size). -/
def batchSize (live : List (Key × Bytes × ValueHandle)) : Nat :=
  (live.map (fun e => liveRecordSize e.1 e.2.1)).sum

/-- C++ unsigned integer division: undefined (here `none`) on a zero
divisor. -/
def cppDiv (a b : Nat) : Option Nat := if b = 0 then none else some (a / b)

/-- The two GC rewrite thresholds (integer percents). -/
structure GCOptions where
  blobGCSizeDiscardThreshold : Nat
  blobGCNumDiscardThreshold : Nat
  deriving DecidableEq, Repr

/-- `ValueBatch::Iterate` driving `RewriteLSMHandler::operator()`
(blob_vlog_gc.cc:52-85): per finalized record, stop with IOError if the
shutdown flag reads true; otherwise issue one single-entry LSM batch
`Put(key, encoded_new_handle, kTypeValueHandle)` gated by the record's
`ValueLogGCWriteCallback(key, old_handle)`; an injected LSM write failure
stops the loop with IOError.  Products of `uint32_t` never arise here. -/
def rewriteLoop (env : GCEnv) :
    List (Key × ValueHandle × ValueHandle) → LSM → Nat → Status × List GCEvent × LSM
  | [], lsm, _ => (.ok, [], lsm)
  | (k, newH, oldH) :: rest, lsm, i =>
    if shutdownActive env i then (.ioError, [], lsm)
    else if env.lsmWriteFailAt = some i then (.ioError, [.lsmWrite i], lsm)
    else
      let lsm' := (lsmWriteWithCallback lsm k .typeValueHandle newH.encode k oldH).2
      let res := rewriteLoop env rest lsm' (i + 1)
      (res.1, .lsmWrite i :: res.2.1, res.2.2)

/-- The file-phase actions of a GC rewrite, in the order the source performs
them: the `NewAppendableRandomAccessFile` call, `AddBatch`, `file->Sync()`,
`builder->Finish()`, `file->Close()` and the `ro_files_.emplace`. -/
def filePhaseEvents (n : Nat) : List GCEvent :=
  [.newVlogFile n, .appendBatch n, .fileSync n, .builderFinish n, .fileClose n,
    .registerRO n]

/-- The copy phase of `Rewrite` (blob_vlog_gc.cc:356-436), reached once the
thresholds are met, the file is not entirely dead and the new file was
created: the new number is allocated and registered in `pending_outputs_`,
the finalized batch is appended, synced and closed, the file is registered
in `ro_files_`, the LSM rewrite loop runs, the LSM is synced, and the
`AddFile(new) + DeleteFile(old, latest_sequence)` edit is committed. -/
def rewriteCopyPhase (st : GCRunState) (env : GCEnv) (number : Nat) (gc : GCStats) :
    Status × List GCEvent × GCRunState :=
  let newNumber := st.vlogFileNumber + 1
  let fileSize := batchSize gc.live
  let st₃ := { st with
    vlogFileNumber := newNumber
    pendingOutputs := st.pendingOutputs ++ [newNumber]
    roFiles := mapEmplace st.roFiles (newNumber, fileSize) }
  let res := rewriteLoop env (finalizeBatch newNumber 0 gc.live) st.lsm 0
  let st₄ := { st₃ with lsm := res.2.2 }
  if res.1 ≠ .ok then (.ioError, filePhaseEvents newNumber ++ res.2.1, st₄)
  else if ¬ env.lsmSyncOk then
    (.ioError, filePhaseEvents newNumber ++ res.2.1 ++ [.lsmSync], st₄)
  else
    (.ok, filePhaseEvents newNumber ++ res.2.1
        ++ [.lsmSync, .versionEdit ⟨[(newNumber, fileSize)], [(number, st.latestSequence)]⟩],
      logAndApply st₄ ⟨[(newNumber, fileSize)], [(number, st.latestSequence)]⟩)

/-- `ValueLogImpl::Rewrite`: compare the `uint32_t` percentage ratios
(`discard*100` wraps modulo `2^32`; division by a zero total is undefined
behaviour, hence `Option`); below both thresholds return NonFatal; when
everything is dead commit a lone `DeleteFile` edit; when the new file cannot
be created return the creation error (the file number is already consumed);
otherwise run the copy phase. -/
def RewriteM (st : GCRunState) (env : GCEnv) (opts : GCOptions) (number : Nat)
    (gc : GCStats) : Option (Status × List GCEvent × GCRunState) :=
  match cppDiv (gc.discardSize * 100 % 2 ^ 32) gc.totalSize,
        cppDiv (gc.discardEntries * 100 % 2 ^ 32) gc.totalEntries with
  | some sizePct, some numPct =>
    if sizePct < opts.blobGCSizeDiscardThreshold ∧
        numPct < opts.blobGCNumDiscardThreshold then
      some (.nonFatal, [], st)
    else if gc.discardEntries = gc.totalEntries then
      some (.ok, [.versionEdit ⟨[], [(number, st.latestSequence)]⟩],
        logAndApply st ⟨[], [(number, st.latestSequence)]⟩)
    else if env.newFileOk then
      some (rewriteCopyPhase st env number gc)
    else
      some (.ioError, [.newVlogFile (st.vlogFileNumber + 1)],
        { st with vlogFileNumber := st.vlogFileNumber + 1 })
  | _, _ => none

/-! ## `BackgroundGC` and the scheduling gates (blob_vlog_gc.cc:110-208) -/

/-- `ValueLogImpl::BackgroundGC`: pick a candidate (from `manual_gc_number`
when manual, else from `gc_pointer_`, which is then advanced to the
candidate plus one or reset to 0); on an empty pick record NonFatal and
return; otherwise `Collect`, stop recording a fatal collect error, then
`Rewrite`, and record the run's final status into `bg_error_`
(`RecordBGError` overwrites unconditionally). -/
def BackgroundGCM (st : GCRunState) (env : GCEnv) (opts : GCOptions) :
    Option (Status × GCRunState) :=
  let pickStart := if st.manualGC then st.manualGCNumber else st.gcPointer
  let picked := pickGCFrom st.roFiles st.obsoleteFiles pickStart
  let st₁ :=
    if st.manualGC then { st with manualGC := false }
    else { st with gcPointer := match picked with | some m => m + 1 | none => 0 }
  match picked with
  | none => some (.nonFatal, { st₁ with bgError := .nonFatal })
  | some number =>
    let collected := CollectM st₁ env number
    if collected.1.isFatalBG then some (collected.1, { st₁ with bgError := collected.1 })
    else
      match RewriteM st₁ env opts number collected.2 with
      | none => none
      | some (rs, _, st₂) => some (rs, { st₂ with bgError := rs })

/-- The scheduling state guarded by `mutex_`: whether a GC task is already
scheduled, the shutdown flag, the latched background error, the manual-GC
request flag, and whether `blob_gc_interval` seconds have elapsed since the
last run. -/
structure SchedState where
  bgGC : Bool
  shutdown : Bool
  bgError : Status
  manualGC : Bool
  intervalElapsed : Bool
  deriving DecidableEq, Repr

/-- `ValueLogImpl::MaybeScheduleGC` (blob_vlog_gc.cc:144-163): schedule a
background task only when none is running, the log is not shutting down, the
latched error is not fatal, and either a manual GC was requested or the
interval has elapsed. -/
def maybeScheduleGC (st : SchedState) : Bool :=
  if st.bgGC then false
  else if st.shutdown then false
  else if st.bgError.isFatalBG then false
  else st.manualGC || st.intervalElapsed

/-- `ValueLogImpl::BGCall` (blob_vlog_gc.cc:125-142): a woken background
task performs the collection (`BackgroundGC`) only when the log is not
shutting down and the latched error is not fatal. -/
def bgCallCollects (st : SchedState) : Bool :=
  if st.shutdown then false
  else if st.bgError.isFatalBG then false
  else true

/-! ## Helper lemmas -/

theorem lsmGet_mem {lsm : LSM} {k : Key} {vt : ValueType} {bytes : Bytes}
    (h : lsmGet lsm k = some (vt, bytes)) : (k, vt, bytes) ∈ lsm := by
  unfold lsmGet at h
  cases hf : lsm.find? (fun e => e.1 == k) with
  | none => rw [hf] at h; exact absurd h (by simp)
  | some e =>
    rw [hf] at h
    obtain ⟨e1, e2, e3⟩ := e
    have hmem := List.mem_of_find?_eq_some hf
    have hpred := List.find?_some hf
    simp only [beq_iff_eq] at hpred
    by_cases hd : e2 = ValueType.typeDeletion
    · simp [hd] at h
    · simp only [hd, if_false, if_neg hd, Option.some.injEq, Prod.mk.injEq] at h
      obtain ⟨h1, h2⟩ := h
      subst h1; subst h2; subst hpred
      exact hmem

theorem find?_congr_mem {α : Type} {p q : α → Bool} (l : List α)
    (h : ∀ x ∈ l, p x = q x) : l.find? p = l.find? q := by
  induction l with
  | nil => rfl
  | cons a l ih =>
    have ha := h a (List.mem_cons_self a l)
    by_cases hp : p a = true
    · rw [List.find?_cons_of_pos _ hp, List.find?_cons_of_pos _ (ha ▸ hp)]
    · rw [List.find?_cons_of_neg _ hp,
        List.find?_cons_of_neg _ (by rw [← ha]; exact hp)]
      exact ih fun x hx => h x (List.mem_cons_of_mem _ hx)

theorem pickGCFrom_mem {ro obs : List (Nat × Nat)} {n m : Nat}
    (h : pickGCFrom ro obs n = some m) : m ∈ ro.map Prod.fst := by
  induction ro generalizing n with
  | nil => exact absurd h (by simp [pickGCFrom])
  | cons e rest ih =>
    obtain ⟨a, v⟩ := e
    unfold pickGCFrom at h
    split at h
    · exact List.mem_cons_of_mem _ (ih h)
    · split at h
      · exact List.mem_cons_of_mem _ (ih h)
      · simp only [Option.some.injEq] at h
        subst h
        exact List.mem_cons_self _ _

/-- `PickGC` on a sorted `ro_files_` map computes the first (hence least)
live file number that is at least the start and not obsolete. -/
theorem pickGCFrom_eq_find (ro obs : List (Nat × Nat)) (n : Nat)
    (hs : ro.Pairwise (fun a b => a.1 < b.1)) :
    pickGCFrom ro obs n =
      (ro.map Prod.fst).find?
        (fun m => decide (n ≤ m) && !((obs.map Prod.fst).contains m)) := by
  induction ro generalizing n with
  | nil => rfl
  | cons e rest ih =>
    obtain ⟨a, v⟩ := e
    have hrest : rest.Pairwise (fun x y => x.1 < y.1) := hs.sublist (List.sublist_cons_self _ _)
    have hlt : ∀ x ∈ rest, a < x.1 := fun x hx => (List.pairwise_cons.mp hs).1 x hx
    unfold pickGCFrom
    by_cases h1 : a < n
    · rw [if_pos h1, List.map_cons, List.find?_cons_of_neg _ (by simp; omega)]
      exact ih n hrest
    · rw [if_neg h1]
      by_cases h2 : (obs.map Prod.fst).contains a
      · rw [if_pos h2, List.map_cons, List.find?_cons_of_neg _ (by simp_all)]
        rw [ih (a + 1) hrest]
        apply find?_congr_mem
        intro x hx
        obtain ⟨y, hy, hyx⟩ := List.mem_map.mp hx
        have : a < x := hyx ▸ hlt y hy
        have hn : n ≤ x := by omega
        have ha1 : a + 1 ≤ x := by omega
        simp [hn, ha1]
      · rw [if_neg h2, List.map_cons, List.find?_cons_of_pos _ (by simp_all; try omega)]

/-- The LSM rewrite loop starting at index `i` issues the writes
`i, i+1, …` in order; it issues all of them exactly when it reports OK. -/
theorem rewriteLoop_events (env : GCEnv)
    (l : List (Key × ValueHandle × ValueHandle)) (lsm : LSM) (i : Nat) :
    ∃ k, k ≤ l.length
      ∧ (rewriteLoop env l lsm i).2.1 = (List.range' i k).map GCEvent.lsmWrite
      ∧ ((rewriteLoop env l lsm i).1 = .ok → k = l.length) := by
  induction l generalizing lsm i with
  | nil => exact ⟨0, by simp [rewriteLoop]⟩
  | cons e rest ih =>
    obtain ⟨k, newH, oldH⟩ := e
    unfold rewriteLoop
    by_cases h1 : shutdownActive env i
    · refine ⟨0, by simp, by simp [h1], ?_⟩
      simp [h1]
    · by_cases h2 : env.lsmWriteFailAt = some i
      · refine ⟨1, by simp, ?_, ?_⟩
        · simp [h1, h2, List.range']
        · simp [h1, h2]
      · obtain ⟨k', hk', hev, hok⟩ :=
          ih ((lsmWriteWithCallback lsm k .typeValueHandle newH.encode k oldH).2) (i + 1)
        refine ⟨k' + 1, by simpa using hk', ?_, ?_⟩
        · simp only [if_neg h1, if_neg h2, List.range'_succ, List.map_cons]
          rw [hev]
        · intro hsok
          simp only [if_neg h1, if_neg h2] at hsok
          have := hok hsok
          simp [this]

/-- The dead/live classification as the spec words it: a record is dead
exactly when the LSM lookup of its key is NotFound, or yields an entry whose
type is not Handle, or yields a Handle that decodes unequal to the
iterator's current handle. -/
def recordDead (lsm : LSM) (r : VRecord) : Bool :=
  match lsmGet lsm r.key with
  | none => true
  | some (vt, bytes) =>
    if vt ≠ ValueType.typeValueHandle then true
    else
      match ValueHandle.decodeFrom bytes with
      | some (h, _) => decide (h ≠ r.handle)
      | none => true

/-- Every Handle-tagged LSM entry holds a decodable handle encoding.  The
write path only ever stores `ValueHandle::EncodeTo` output under
`kTypeValueHandle`, so this holds of every reachable LSM state. -/
def lsmHandlesDecodable (lsm : LSM) : Prop :=
  ∀ e ∈ lsm, e.2.1 = ValueType.typeValueHandle → (ValueHandle.decodeFrom e.2.2).isSome = true

instance (lsm : LSM) : Decidable (lsmHandlesDecodable lsm) := by
  unfold lsmHandlesDecodable; infer_instance

/-- The `Collect` scan loop, characterized: on a well-formed LSM the
loop-carried register variables are irrelevant, the totals count every
scanned record, the discard counters count exactly the records that
`recordDead` classifies dead, and the live records are queued in scan order
paired with their current handle. -/
theorem collectLoop_spec (lsm : LSM) (hwf : lsmHandlesDecodable lsm)
    (recs : List VRecord) (regs : CollectRegs)
    (te ts de ds : Nat) (lv : List (Key × Bytes × ValueHandle))
    (hte : te + recs.length < 2 ^ 32)
    (hts : ts + (recs.map (fun r => r.handle.size)).sum < 2 ^ 32)
    (hde : de ≤ te) (hds : ds ≤ ts) :
    collectLoop lsm recs regs ⟨te, ts, de, ds, lv⟩ =
      ⟨te + recs.length, ts + (recs.map (fun r => r.handle.size)).sum,
        de + (recs.filter (recordDead lsm)).length,
        ds + ((recs.filter (recordDead lsm)).map (fun r => r.handle.size)).sum,
        lv ++ (recs.filter (fun r => !recordDead lsm r)).map
          (fun r => (r.key, r.value, r.handle))⟩ := by
  induction recs generalizing regs te ts de ds lv with
  | nil => simp [collectLoop]
  | cons r rest ih =>
    simp only [List.length_cons] at hte
    simp only [List.map_cons, List.sum_cons] at hts
    have hmod_te : (te + 1) % 2 ^ 32 = te + 1 := by omega
    have hmod_ts : (ts + r.handle.size) % 2 ^ 32 = ts + r.handle.size := by omega
    have hmod_de : (de + 1) % 2 ^ 32 = de + 1 := by omega
    have hmod_ds : (ds + r.handle.size) % 2 ^ 32 = ds + r.handle.size := by omega
    cases hres : lsmGet lsm r.key with
    | none =>
      have hdead : recordDead lsm r = true := by simp [recordDead, hres]
      simp only [collectLoop, hres, Option.isNone_none, eq_self_iff_true, true_or, if_true,
        hmod_te, hmod_ts, hmod_de, hmod_ds]
      rw [ih _ _ _ _ _ _ (by omega) (by omega) (by omega) (by omega)]
      simp [List.filter_cons, hdead, Nat.add_comm, Nat.add_left_comm, Nat.add_assoc]
    | some p =>
      obtain ⟨vt, bytes⟩ := p
      by_cases hvt : vt = ValueType.typeValueHandle
      · subst hvt
        have hdec : (ValueHandle.decodeFrom bytes).isSome = true :=
          hwf _ (lsmGet_mem hres) rfl
        obtain ⟨⟨h, rest'⟩, hhd⟩ := Option.isSome_iff_exists.mp hdec
        by_cases heq : h = r.handle
        · -- live record
          have hdead : recordDead lsm r = false := by
            simp [recordDead, hres, hhd, heq]
          simp only [collectLoop, hres, Option.isNone_some, decodeOrKeep, hhd,
            eq_self_iff_true, if_true, heq, ne_eq, not_true_eq_false, or_false,
            false_or, Bool.false_eq_true, if_false, hmod_te, hmod_ts]
          rw [ih _ _ _ _ _ _ (by omega) (by omega) (by omega) (by omega)]
          simp [List.filter_cons, hdead, Nat.add_comm, Nat.add_left_comm, Nat.add_assoc]
        · -- dead: the stored handle points to a different location
          have hdead : recordDead lsm r = true := by
            simp [recordDead, hres, hhd, heq]
          have hne : decodeOrKeep bytes regs.handle ≠ r.handle := by
            simp [decodeOrKeep, hhd, heq]
          simp only [collectLoop, hres, Option.isNone_some, decodeOrKeep, hhd,
            eq_self_iff_true, if_true, hne, ne_eq, not_false_eq_true, or_true,
            hmod_te, hmod_ts, hmod_de, hmod_ds]
          rw [ih _ _ _ _ _ _ (by omega) (by omega) (by omega) (by omega)]
          simp [List.filter_cons, hdead, Nat.add_comm, Nat.add_left_comm, Nat.add_assoc]
          intro hcontr
          exact absurd hcontr heq
      · -- dead: the key was overwritten by an inline value or a deletion
        have hdead : recordDead lsm r = true := by simp [recordDead, hres, hvt]
        have hcond : ((lsmGet lsm r.key).isNone = true
            ∨ vt ≠ ValueType.typeValueHandle
            ∨ (if vt = ValueType.typeValueHandle then decodeOrKeep bytes regs.handle
                else regs.handle) ≠ r.handle) := Or.inr (Or.inl hvt)
        simp only [collectLoop, hres, if_neg hvt]
        rw [if_pos (Or.inr (Or.inl hvt))]
        simp only [hmod_te, hmod_ts, hmod_de, hmod_ds]
        rw [ih _ _ _ _ _ _ (by omega) (by omega) (by omega) (by omega)]
        simp [List.filter_cons, hdead, Nat.add_comm, Nat.add_left_comm, Nat.add_assoc]

theorem rewriteCopyPhase_fields (st : GCRunState) (env : GCEnv) (number : Nat)
    (gc : GCStats) :
    (rewriteCopyPhase st env number gc).2.2.gcPointer = st.gcPointer
    ∧ (rewriteCopyPhase st env number gc).2.2.manualGC = st.manualGC
    ∧ (rewriteCopyPhase st env number gc).2.2.bgError = st.bgError
    ∧ (st.vlogFileNumber + 1) ∈ (rewriteCopyPhase st env number gc).2.2.pendingOutputs := by
  unfold rewriteCopyPhase logAndApply
  dsimp only
  split_ifs <;> exact ⟨rfl, rfl, rfl, by simp⟩

theorem rewriteM_scheduler_fields (st : GCRunState) (env : GCEnv) (opts : GCOptions)
    (number : Nat) (gc : GCStats) (r : Status × List GCEvent × GCRunState)
    (h : RewriteM st env opts number gc = some r) :
    r.2.2.gcPointer = st.gcPointer ∧ r.2.2.manualGC = st.manualGC
      ∧ r.2.2.bgError = st.bgError := by
  unfold RewriteM at h
  split at h
  · split at h
    · cases h; exact ⟨rfl, rfl, rfl⟩
    · split at h
      · cases h; exact ⟨rfl, rfl, rfl⟩
      · split at h
        · cases h
          obtain ⟨h1, h2, h3, _⟩ := rewriteCopyPhase_fields st env number gc
          exact ⟨h1, h2, h3⟩
        · cases h; exact ⟨rfl, rfl, rfl⟩
  · exact absurd h (by simp)

theorem rewriteCopyPhase_bgError (st : GCRunState) (env : GCEnv) (number : Nat)
    (gc : GCStats) (e : Status) :
    rewriteCopyPhase { st with bgError := e } env number gc =
      ((rewriteCopyPhase st env number gc).1,
        (rewriteCopyPhase st env number gc).2.1,
        { (rewriteCopyPhase st env number gc).2.2 with bgError := e }) := by
  unfold rewriteCopyPhase logAndApply
  dsimp only
  split_ifs <;> rfl

theorem rewriteM_bgError (st : GCRunState) (env : GCEnv) (opts : GCOptions)
    (number : Nat) (gc : GCStats) (e : Status) :
    RewriteM { st with bgError := e } env opts number gc =
      (RewriteM st env opts number gc).map
        (fun r => (r.1, r.2.1, { r.2.2 with bgError := e })) := by
  unfold RewriteM
  split
  · split_ifs
    · rfl
    · rfl
    · rw [rewriteCopyPhase_bgError]; rfl
    · rfl
  · rfl

/-! ## Claim theorems -/

/-- Claim C1, counterexample.  The claim states that the GC commit callback
"returns InvalidArgument … unless the value currently stored for k is a
Handle entry equal to h".  Both halves fail on the code: (a) when the key is
absent the callback returns the `Get` status NotFound, not InvalidArgument
(blob_vlog_gc.cc:27-29 returns `s` unchanged); (b) the callback never
consults the value-type tag, so an Inline (`kTypeValue`) entry whose bytes
happen to decode to the pre-GC handle makes the callback return OK even
though the stored value is not a Handle entry. -/
theorem gcWriteCallback_claim_counterexample :
    gcWriteCallback [] "k" ⟨1, 0, 0⟩ = Status.notFound
    ∧ Status.notFound ≠ Status.invalidArgument
    ∧ lsmGet [("k", ValueType.typeValue, ValueHandle.encode ⟨1, 0, 0⟩)] "k"
        = some (ValueType.typeValue, ValueHandle.encode ⟨1, 0, 0⟩)
    ∧ gcWriteCallback [("k", ValueType.typeValue, ValueHandle.encode ⟨1, 0, 0⟩)]
        "k" ⟨1, 0, 0⟩ = Status.ok := by
  refine ⟨rfl, by decide, rfl, rfl⟩

/-- Claim C1, amended.  The commit callback re-reads `k` from the LSM and returns
a non-OK status (NotFound when the read fails, InvalidArgument otherwise)
unless the bytes currently stored for `k` decode — with the value-type tag
not consulted, and a failed decode leaving the default-constructed handle —
to exactly the pre-GC handle `h`; and whenever the callback is non-OK the
gated batch is dropped, so a concurrent user overwrite whose stored bytes do
not decode to `h` is preserved. -/
theorem gcWriteCallback_cas (lsm : LSM) (k : Key) (h : ValueHandle)
    (wk : Key) (wvt : ValueType) (wbytes : Bytes) :
    (gcWriteCallback lsm k h = .ok ↔
      ∃ vt bytes, lsmGet lsm k = some (vt, bytes) ∧ decodeOrKeep bytes default = h)
    ∧ (gcWriteCallback lsm k h ≠ .ok →
        (lsmWriteWithCallback lsm wk wvt wbytes k h).2 = lsm) := by
  constructor
  · unfold gcWriteCallback
    cases hres : lsmGet lsm k with
    | none => simp
    | some p =>
      obtain ⟨vt, bytes⟩ := p
      constructor
      · intro hok
        refine ⟨vt, bytes, rfl, ?_⟩
        by_contra hne
        simp [hne] at hok
      · rintro ⟨vt', bytes', hb, hd⟩
        cases hb
        exact if_pos hd
  · intro hne
    unfold lsmWriteWithCallback
    simp [hne]

/-- Claim C1, witness for the amended theorem: a user overwrite of `"k"` with
bytes `[7]` (which do not decode to the pre-GC handle) survives the GC's
gated rewrite attempt unchanged. -/
theorem gcWriteCallback_cas_witness :
    (lsmWriteWithCallback [("k", ValueType.typeValue, [7])] "k2"
        ValueType.typeValueHandle (ValueHandle.encode ⟨2, 0, 0⟩) "k" ⟨1, 0, 0⟩).2
      = [("k", ValueType.typeValue, [7])] :=
  (gcWriteCallback_cas [("k", ValueType.typeValue, [7])] "k" ⟨1, 0, 0⟩ "k2"
    ValueType.typeValueHandle (ValueHandle.encode ⟨2, 0, 0⟩)).2 (by decide)

/-- Claim C8.  Whenever the shutdown flag is set or the latched background error
is fatal (neither OK nor NonFatal), `MaybeScheduleGC` schedules nothing and
a woken `BGCall` performs no collection; when the latched error is OK or
NonFatal, scheduling proceeds normally: it fires exactly when no task is
running, no shutdown is in progress, and a manual request is pending or the
interval has elapsed, and a woken call collects unless shutting down. -/
theorem gc_scheduling_gates (st : SchedState) :
    (st.shutdown = true ∨ st.bgError.isFatalBG = true →
      maybeScheduleGC st = false ∧ bgCallCollects st = false)
    ∧ (st.bgError.isFatalBG = false →
        maybeScheduleGC st
          = (!st.bgGC && !st.shutdown && (st.manualGC || st.intervalElapsed))
        ∧ bgCallCollects st = !st.shutdown) := by
  obtain ⟨b, sh, err, m, i⟩ := st
  cases b <;> cases sh <;> cases err <;> cases m <;> cases i <;> decide

/-- Claim C8, witness: under shutdown nothing is scheduled and a woken call skips
collection even though a manual request is pending. -/
theorem gc_scheduling_gates_witness :
    maybeScheduleGC ⟨false, true, Status.ok, true, true⟩ = false
    ∧ bgCallCollects ⟨false, true, Status.ok, true, true⟩ = false :=
  (gc_scheduling_gates ⟨false, true, Status.ok, true, true⟩).1 (Or.inl rfl)

/-- Claim C9.  `Collect` returns NonFatal without scanning any record whenever the
candidate number is 0, or at least the current maximum file number, or no
iterator can be opened for it; and `PickGC` only ever returns members of
`ro_files_`, so the active file — which is never in `ro_files_` — is never
selected for collection. -/
theorem collect_guards_and_active_excluded :
    (∀ (st : GCRunState) (env : GCEnv) (number : Nat),
      number = 0 ∨ st.vlogFileNumber ≤ number ∨ env.iterOf number = none →
      CollectM st env number = (.nonFatal, GCStats.empty))
    ∧ ∀ (ro obs : List (Nat × Nat)) (n active : Nat),
        (∀ sz, (active, sz) ∉ ro) → pickGCFrom ro obs n ≠ some active := by
  constructor
  · intro st env number h
    unfold CollectM
    rcases h with h | h | h
    · rw [if_pos (Or.inr h)]
    · rw [if_pos (Or.inl h)]
    · by_cases h2 : number ≥ st.vlogFileNumber ∨ number = 0
      · rw [if_pos h2]
      · rw [if_neg h2, h]
  · intro ro obs n active hact hpick
    obtain ⟨⟨a, sz⟩, hmem, ha⟩ := List.mem_map.mp (pickGCFrom_mem hpick)
    cases ha
    exact hact sz hmem

/-- Claim C9, witness: candidate number 0 is rejected without a scan, and a number
absent from `ro_files_` is never picked. -/
theorem collect_guards_witness :
    CollectM ⟨[(3, 10)], [], [], 4, [], [], 0, false, 0, .ok, 0⟩
        ⟨fun _ => none, true, none, none, true⟩ 0 = (.nonFatal, GCStats.empty)
    ∧ pickGCFrom [(3, 10)] [] 0 ≠ some 7 :=
  ⟨collect_guards_and_active_excluded.1 _ _ 0 (Or.inl rfl),
    collect_guards_and_active_excluded.2 [(3, 10)] [] 0 7
      (fun sz h => by simp at h)⟩

theorem pickGCFrom_some_props (ro obs : List (Nat × Nat)) (n m : Nat)
    (h : pickGCFrom ro obs n = some m) :
    n ≤ m ∧ m ∉ obs.map Prod.fst := by
  induction ro generalizing n with
  | nil => exact absurd h (by simp [pickGCFrom])
  | cons e rest ih =>
    obtain ⟨a, v⟩ := e
    unfold pickGCFrom at h
    split at h
    · exact ih n h
    · rename_i h1
      split at h
      · obtain ⟨ha, hb⟩ := ih (a + 1) h
        exact ⟨by omega, hb⟩
      · rename_i h2
        simp only [Option.some.injEq] at h
        subst h
        exact ⟨by omega, by simpa using h2⟩

theorem pickGCFrom_min (ro obs : List (Nat × Nat)) (n m : Nat)
    (hs : ro.Pairwise (fun a b => a.1 < b.1))
    (h : pickGCFrom ro obs n = some m) :
    ∀ m' ∈ ro.map Prod.fst, n ≤ m' → m' ∉ obs.map Prod.fst → m ≤ m' := by
  induction ro generalizing n with
  | nil => exact absurd h (by simp [pickGCFrom])
  | cons e rest ih =>
    obtain ⟨a, v⟩ := e
    have hrest : rest.Pairwise (fun x y => x.1 < y.1) :=
      hs.sublist (List.sublist_cons_self _ _)
    have hlt : ∀ x ∈ rest, a < x.1 := fun x hx => (List.pairwise_cons.mp hs).1 x hx
    intro m' hm' hnm' hobs'
    rw [List.map_cons, List.mem_cons] at hm'
    unfold pickGCFrom at h
    split at h
    · rename_i h1
      rcases hm' with rfl | hc
      · omega
      · exact ih n hrest h m' hc hnm' hobs'
    · rename_i h1
      split at h
      · rename_i h2
        rcases hm' with rfl | hc
        · exact absurd (by simpa using h2) hobs'
        · obtain ⟨x, hx, hxm⟩ := List.mem_map.mp hc
          have : a < m' := hxm ▸ hlt x hx
          exact ih (a + 1) hrest h m' hc (by omega) hobs'
      · simp only [Option.some.injEq] at h
        subst h
        rcases hm' with rfl | hc
        · omega
        · obtain ⟨x, hx, hxm⟩ := List.mem_map.mp hc
          have := hlt x hx
          omega

theorem pickGCFrom_none_iff (ro obs : List (Nat × Nat)) (n : Nat)
    (hs : ro.Pairwise (fun a b => a.1 < b.1)) :
    pickGCFrom ro obs n = none ↔
      ∀ m' ∈ ro.map Prod.fst, n ≤ m' → m' ∈ obs.map Prod.fst := by
  induction ro generalizing n with
  | nil => simp [pickGCFrom]
  | cons e rest ih =>
    obtain ⟨a, v⟩ := e
    have hrest : rest.Pairwise (fun x y => x.1 < y.1) :=
      hs.sublist (List.sublist_cons_self _ _)
    have hlt : ∀ x ∈ rest, a < x.1 := fun x hx => (List.pairwise_cons.mp hs).1 x hx
    unfold pickGCFrom
    split
    · rename_i h1
      rw [ih n hrest]
      simp only [List.map_cons, List.mem_cons]
      constructor
      · intro hall m' hm' hn'
        rcases hm' with rfl | hc
        · omega
        · exact hall m' hc hn'
      · intro hall m' hm' hn'
        exact hall m' (Or.inr hm') hn'
    · rename_i h1
      split
      · rename_i h2
        rw [ih (a + 1) hrest]
        simp only [List.map_cons, List.mem_cons]
        constructor
        · intro hall m' hm' hn'
          rcases hm' with rfl | hc
          · simpa using h2
          · obtain ⟨x, hx, hxm⟩ := List.mem_map.mp hc
            have : a < m' := hxm ▸ hlt x hx
            exact hall m' hc (by omega)
        · intro hall m' hm' _
          obtain ⟨x, hx, hxm⟩ := List.mem_map.mp hm'
          have : a < m' := hxm ▸ hlt x hx
          exact hall m' (Or.inr hm') (by omega)
      · rename_i h2
        simp only [List.map_cons, List.mem_cons]
        constructor
        · intro hfalse
          exact absurd hfalse (by simp)
        · intro hall
          exact absurd (hall a (Or.inl rfl) (by omega))
            (by simpa using h2)

/-- Claim C6.  On a sorted `ro_files_` map, `PickGC(n)` returns exactly the
smallest read-only file number that is at least `n` and not obsolete, and
returns no candidate precisely when no such number exists; in the automatic
path `gc_pointer_` becomes the candidate plus one after a successful pick
and 0 on an empty pick, and an empty pick makes the run record NonFatal and
return (rather than loop). -/
theorem pickGC_least_and_pointer (st : GCRunState) (env : GCEnv) (opts : GCOptions)
    (hs : st.roFiles.Pairwise (fun a b => a.1 < b.1)) (hm : st.manualGC = false) :
    (∀ m, pickGCFrom st.roFiles st.obsoleteFiles st.gcPointer = some m →
      m ∈ st.roFiles.map Prod.fst ∧ st.gcPointer ≤ m
        ∧ m ∉ st.obsoleteFiles.map Prod.fst
        ∧ (∀ m' ∈ st.roFiles.map Prod.fst, st.gcPointer ≤ m' →
            m' ∉ st.obsoleteFiles.map Prod.fst → m ≤ m')
        ∧ ∀ s st', BackgroundGCM st env opts = some (s, st') → st'.gcPointer = m + 1)
    ∧ (pickGCFrom st.roFiles st.obsoleteFiles st.gcPointer = none ↔
        ∀ m' ∈ st.roFiles.map Prod.fst, st.gcPointer ≤ m' →
          m' ∈ st.obsoleteFiles.map Prod.fst)
    ∧ (pickGCFrom st.roFiles st.obsoleteFiles st.gcPointer = none →
        BackgroundGCM st env opts
          = some (.nonFatal, { st with gcPointer := 0, bgError := .nonFatal })) := by
  refine ⟨?_, pickGCFrom_none_iff _ _ _ hs, ?_⟩
  · intro m hpick
    refine ⟨pickGCFrom_mem hpick, (pickGCFrom_some_props _ _ _ _ hpick).1,
      (pickGCFrom_some_props _ _ _ _ hpick).2,
      pickGCFrom_min _ _ _ _ hs hpick, ?_⟩
    intro s st' hrun
    unfold BackgroundGCM at hrun
    simp only [hm, Bool.false_eq_true, if_false, hpick] at hrun
    split at hrun
    · cases hrun
      rfl
    · rename_i hrw
      split at hrun
      · exact Option.noConfusion hrun
      · rename_i rs tr st₂ heq
        cases hrun
        exact (rewriteM_scheduler_fields _ _ _ _ _ _ heq).1
  · intro hnone
    unfold BackgroundGCM
    simp only [hm, Bool.false_eq_true, if_false, hnone]

/-- Claim C6, witness: with read-only files `{2, 4}`, file 2 obsolete and the
pointer at 0, the pick is 4: a live member, at least the pointer, not
obsolete, and minimal among such. -/
theorem pickGC_least_witness :
    4 ∈ ([(2, 5), (4, 7)] : List (Nat × Nat)).map Prod.fst
    ∧ 0 ≤ 4
    ∧ 4 ∉ ([(2, 1)] : List (Nat × Nat)).map Prod.fst := by
  have h := (pickGC_least_and_pointer
    ⟨[(2, 5), (4, 7)], [(2, 1)], [], 9, [], [], 0, false, 0, .ok, 0⟩
    ⟨fun _ => none, true, none, none, true⟩ ⟨50, 50⟩ (by decide) rfl).1 4 rfl
  exact ⟨h.1, h.2.1, h.2.2.1⟩

/-- Claim C3.  For every record scanned by `Collect` in a valid candidate file
(on an LSM whose Handle entries are decodable, and with the `uint32_t`
counters not overflowing): the record is counted discarded exactly when
`recordDead` holds — the LSM lookup is NotFound, or yields a non-Handle
entry, or yields a Handle decoding unequal to the iterator's current
handle — every other record is appended to the pending `ValueBatch` paired
with a callback carrying its key and current handle, and
`total_entries`/`total_size` count every scanned record. -/
theorem collect_classifies (st : GCRunState) (env : GCEnv) (number : Nat)
    (recs : List VRecord)
    (hwf : lsmHandlesDecodable st.lsm)
    (h0 : 0 < number) (hlt : number < st.vlogFileNumber)
    (hiter : env.iterOf number = some recs)
    (hlen : recs.length < 2 ^ 32)
    (hsize : (recs.map (fun r => r.handle.size)).sum < 2 ^ 32) :
    CollectM st env number =
      (.ok,
        ⟨recs.length,
          (recs.map (fun r => r.handle.size)).sum,
          (recs.filter (recordDead st.lsm)).length,
          ((recs.filter (recordDead st.lsm)).map (fun r => r.handle.size)).sum,
          (recs.filter (fun r => !recordDead st.lsm r)).map
            (fun r => (r.key, r.value, r.handle))⟩) := by
  unfold CollectM
  rw [if_neg (by omega), hiter]
  simp only [GCStats.empty]
  rw [collectLoop_spec st.lsm hwf recs _ 0 0 0 0 [] (by omega) (by omega) le_rfl le_rfl]
  simp

/-- Claim C3, witness: a four-record candidate file on a concrete LSM — one live
record, one overwritten inline, one deleted, one relocated — is classified
as 3 discarded out of 4 scanned, with only the live record queued. -/
theorem collect_classifies_witness :
    CollectM
      ⟨[(3, 40)], [], [], 5, [],
        [("a", ValueType.typeValueHandle, ValueHandle.encode ⟨3, 0, 10⟩),
          ("b", ValueType.typeValue, [1]),
          ("d", ValueType.typeValueHandle, ValueHandle.encode ⟨9, 0, 4⟩)],
        0, false, 0, .ok, 0⟩
      ⟨fun n =>
        if n = 3 then
          some [⟨"a", [5], ⟨3, 0, 10⟩⟩, ⟨"b", [6], ⟨3, 10, 12⟩⟩,
            ⟨"c", [7], ⟨3, 22, 9⟩⟩, ⟨"d", [8], ⟨3, 31, 6⟩⟩]
        else none, true, none, none, true⟩ 3
      = (.ok, ⟨4, 37, 3, 27, [("a", [5], ⟨3, 0, 10⟩)]⟩) := by
  refine (collect_classifies _ _ 3
    [⟨"a", [5], ⟨3, 0, 10⟩⟩, ⟨"b", [6], ⟨3, 10, 12⟩⟩,
      ⟨"c", [7], ⟨3, 22, 9⟩⟩, ⟨"d", [8], ⟨3, 31, 6⟩⟩]
    (by decide) (by decide) (by decide) rfl (by decide) (by decide)).trans (by decide)

theorem rewriteCopyPhase_status (st : GCRunState) (env : GCEnv) (number : Nat)
    (gc : GCStats) :
    (rewriteCopyPhase st env number gc).1 = .ioError
    ∨ (rewriteCopyPhase st env number gc).1 = .ok := by
  unfold rewriteCopyPhase
  dsimp only
  split_ifs <;> simp

/-- Claim C4.  With nonzero totals, `Rewrite` returns NonFatal having performed no
action (empty trace, state untouched) exactly when both `uint32_t`
percentage ratios are below their thresholds:
`discard_size*100 / total_size < blob_gc_size_discard_threshold` and
`discard_entries*100 / total_entries < blob_gc_num_discard_threshold` (the
products wrap modulo `2^32` as in the source); when either ratio reaches its
threshold the rewrite proceeds. -/
theorem rewrite_threshold_gate (st : GCRunState) (env : GCEnv) (opts : GCOptions)
    (number : Nat) (gc : GCStats)
    (h₁ : gc.totalEntries ≠ 0) (h₂ : gc.totalSize ≠ 0) :
    RewriteM st env opts number gc = some (.nonFatal, [], st) ↔
      (gc.discardSize * 100 % 2 ^ 32 / gc.totalSize
          < opts.blobGCSizeDiscardThreshold
        ∧ gc.discardEntries * 100 % 2 ^ 32 / gc.totalEntries
          < opts.blobGCNumDiscardThreshold) := by
  unfold RewriteM
  simp only [cppDiv, if_neg h₁, if_neg h₂]
  constructor
  · intro h
    by_contra hc
    rw [if_neg hc] at h
    split at h
    · simp at h
    · split at h
      · injection h with h'
        have h1 := congrArg Prod.fst h'
        rcases rewriteCopyPhase_status st env number gc with hst | hst <;>
          rw [hst] at h1 <;> exact Status.noConfusion h1
      · simp at h
  · intro hc
    rw [if_pos hc]

/-- Claim C4, witness: 4% size discard and 10% entry discard stay below 50/50
thresholds, so `Rewrite` returns NonFatal with no action taken. -/
theorem rewrite_threshold_gate_witness :
    RewriteM ⟨[(3, 40)], [], [], 5, [], [], 0, false, 0, .ok, 0⟩
        ⟨fun _ => none, true, none, none, true⟩ ⟨50, 50⟩ 3 ⟨10, 100, 1, 4, []⟩
      = some (.nonFatal, [], ⟨[(3, 40)], [], [], 5, [], [], 0, false, 0, .ok, 0⟩) :=
  (rewrite_threshold_gate _ _ ⟨50, 50⟩ 3 ⟨10, 100, 1, 4, []⟩
    (by decide) (by decide)).mpr (by decide)

/-- Claim C5.  The claim (after the spec) says `Rewrite` guards the zero-total
case before the integer percentage threshold comparison.  It does not: when
`BackgroundGC` picks the GC output of a previous run (still equal to the
current maximum file number), `Collect` returns NonFatal with zero totals,
`BackgroundGC` treats NonFatal as continue, and `Rewrite` evaluates
`discard_size*100/total_size` with `total_size = 0` — an unguarded
`uint32_t` division by zero, i.e. undefined behaviour (`none` in this
model, whose only `none` source is `cppDiv` with a zero divisor). -/
theorem backgroundGC_zero_total_division :
    BackgroundGCM ⟨[(5, 100)], [], [], 5, [], [], 0, false, 0, .ok, 9⟩
        ⟨fun _ => none, true, none, none, true⟩ ⟨50, 50⟩ = none
    ∧ CollectM ⟨[(5, 100)], [], [], 5, [], [], 6, false, 0, .ok, 9⟩
        ⟨fun _ => none, true, none, none, true⟩ 5 = (.nonFatal, GCStats.empty)
    ∧ cppDiv (0 * 100 % 2 ^ 32) 0 = none := ⟨rfl, rfl, rfl⟩

theorem finalizeBatch_length (number offset : Nat)
    (l : List (Key × Bytes × ValueHandle)) :
    (finalizeBatch number offset l).length = l.length := by
  induction l generalizing offset with
  | nil => rfl
  | cons e rest ih =>
    obtain ⟨k, v, oldH⟩ := e
    simp [finalizeBatch, ih]

/-- Claim C2.  In every execution of `Rewrite` that reaches the copy phase, the
trace is: the file phase — creation, batch append, file sync, builder
finish, file close, registration in `ro_files_` — strictly before the first
LSM handle rewrite; then the issued rewrites `0..k-1` in order; and a tail
that contains the `Add(new, size) + Delete(old, latest_sequence)` version
edit only when it is `[lsmSync, versionEdit …]` with every one of the
`gc.live.length` rewrites issued (k = gc.live.length) and the run reporting
OK — so the edit is emitted only after every LSM rewrite and a final LSM
sync, and no Handle entry is written before the new vlog bytes are durable. -/
theorem rewrite_copy_ordering (st : GCRunState) (env : GCEnv) (opts : GCOptions)
    (number : Nat) (gc : GCStats)
    (h₁ : gc.totalEntries ≠ 0) (h₂ : gc.totalSize ≠ 0)
    (h₃ : ¬ (gc.discardSize * 100 % 2 ^ 32 / gc.totalSize
            < opts.blobGCSizeDiscardThreshold
          ∧ gc.discardEntries * 100 % 2 ^ 32 / gc.totalEntries
            < opts.blobGCNumDiscardThreshold))
    (h₄ : gc.discardEntries ≠ gc.totalEntries)
    (h₅ : env.newFileOk = true) :
    ∃ s tr st' k tail,
      RewriteM st env opts number gc = some (s, tr, st')
      ∧ tr = filePhaseEvents (st.vlogFileNumber + 1)
          ++ (List.range k).map GCEvent.lsmWrite ++ tail
      ∧ k ≤ gc.live.length
      ∧ (tail = [] ∨ tail = [GCEvent.lsmSync]
          ∨ (tail = [GCEvent.lsmSync,
                GCEvent.versionEdit ⟨[(st.vlogFileNumber + 1, batchSize gc.live)],
                  [(number, st.latestSequence)]⟩]
              ∧ k = gc.live.length ∧ s = .ok)) := by
  have hlen := finalizeBatch_length (st.vlogFileNumber + 1) 0 gc.live
  obtain ⟨k, hk, hev, hok⟩ :=
    rewriteLoop_events env (finalizeBatch (st.vlogFileNumber + 1) 0 gc.live) st.lsm 0
  have hk' : k ≤ gc.live.length := hlen ▸ hk
  rw [← List.range_eq_range'] at hev
  unfold RewriteM
  simp only [cppDiv, if_neg h₁, if_neg h₂]
  rw [if_neg h₃, if_neg h₄, if_pos h₅]
  unfold rewriteCopyPhase
  dsimp only
  by_cases hres :
      (rewriteLoop env (finalizeBatch (st.vlogFileNumber + 1) 0 gc.live) st.lsm 0).1
        = Status.ok
  · rw [if_neg (by simp [hres])]
    have hkfull : k = gc.live.length := hlen ▸ hok hres
    by_cases hsync : env.lsmSyncOk
    · rw [if_neg (by simp [hsync])]
      refine ⟨_, _, _, k, _, rfl, ?_, hk', Or.inr (Or.inr ⟨rfl, hkfull, rfl⟩)⟩
      rw [hev, List.append_assoc]
    · rw [if_pos (by simp [hsync])]
      refine ⟨_, _, _, k, _, rfl, ?_, hk', Or.inr (Or.inl rfl)⟩
      rw [hev, List.append_assoc]
  · rw [if_pos (by simp [hres])]
    refine ⟨_, _, _, k, [], rfl, ?_, hk', Or.inl rfl⟩
    rw [hev, List.append_assoc, List.append_nil]

/-- Claim C2, witness: a concrete copy-phase run (one live record, everything
healthy) whose trace has the file phase first, then the single rewrite, then
the LSM sync and the committed edit. -/
theorem rewrite_copy_ordering_witness :
    ∃ s tr st' k tail,
      RewriteM ⟨[(5, 100)], [], [], 7, [],
          [("k", ValueType.typeValueHandle, ValueHandle.encode ⟨5, 0, 8⟩)],
          0, false, 0, .ok, 9⟩
        ⟨fun _ => none, true, none, none, true⟩ ⟨50, 50⟩ 5
        ⟨2, 200, 1, 100, [("k", [1], ⟨5, 0, 8⟩)]⟩ = some (s, tr, st')
      ∧ tr = filePhaseEvents 8
          ++ (List.range k).map GCEvent.lsmWrite ++ tail
      ∧ k ≤ 1
      ∧ (tail = [] ∨ tail = [GCEvent.lsmSync]
          ∨ (tail = [GCEvent.lsmSync, GCEvent.versionEdit ⟨[(8, 8)], [(5, 9)]⟩]
              ∧ k = 1 ∧ s = .ok)) :=
  rewrite_copy_ordering _ _ ⟨50, 50⟩ 5 ⟨2, 200, 1, 100, [("k", [1], ⟨5, 0, 8⟩)]⟩
    (by decide) (by decide) (by decide) (by decide) rfl

/-- Claim C7, counterexample.  The claim says a file registered in
`pending_outputs_` as an uncommitted GC output is never selected by
`PickGC` until its version edit commits.  It is: after a rewrite whose LSM
phase fails, the new file 8 sits in `pending_outputs_` and in `ro_files_`
with no committed edit, and `PickGC(6)` — which consults only `ro_files_`
and `obsolete_files_` — selects it. -/
theorem pending_output_pickable_counterexample :
    ((RewriteM ⟨[(5, 100)], [], [], 7, [],
          [("k", ValueType.typeValueHandle, ValueHandle.encode ⟨5, 0, 8⟩)],
          6, false, 0, .ok, 9⟩
        ⟨fun _ => none, true, none, some 0, true⟩ ⟨50, 50⟩ 5
        ⟨2, 200, 1, 100, [("k", [1], ⟨5, 0, 8⟩)]⟩).map
      (fun r => (r.2.2.pendingOutputs, r.2.2.committedEdits,
        pickGCFrom r.2.2.roFiles r.2.2.obsoleteFiles 6)))
      = some ([8], [], some 8) := rfl

/-- Claim C7, amended.  `PickGC` does not consult `pending_outputs_`, so an
uncommitted GC output already registered in `ro_files_` can be selected as
a candidate; and nothing in the GC module ever clears `pending_outputs_`:
every copy-phase execution of `Rewrite` — failing or committing — leaves
the new file number registered there. -/
theorem pending_outputs_persist (st : GCRunState) (env : GCEnv) (opts : GCOptions)
    (number : Nat) (gc : GCStats)
    (h₁ : gc.totalEntries ≠ 0) (h₂ : gc.totalSize ≠ 0)
    (h₃ : ¬ (gc.discardSize * 100 % 2 ^ 32 / gc.totalSize
            < opts.blobGCSizeDiscardThreshold
          ∧ gc.discardEntries * 100 % 2 ^ 32 / gc.totalEntries
            < opts.blobGCNumDiscardThreshold))
    (h₄ : gc.discardEntries ≠ gc.totalEntries)
    (h₅ : env.newFileOk = true) :
    ∀ s tr st', RewriteM st env opts number gc = some (s, tr, st') →
      (st.vlogFileNumber + 1) ∈ st'.pendingOutputs := by
  intro s tr st' h
  unfold RewriteM at h
  simp only [cppDiv, if_neg h₁, if_neg h₂] at h
  rw [if_neg h₃, if_neg h₄, if_pos h₅] at h
  injection h with h'
  have hmem := (rewriteCopyPhase_fields st env number gc).2.2.2
  rw [h'] at hmem
  exact hmem

/-- Claim C7, witness for the amended theorem: even in a fully successful
rewrite, whose `Add(8,8)+Delete(5,9)` edit commits, file 8 stays in
`pending_outputs_`. -/
theorem pending_outputs_persist_witness :
    RewriteM ⟨[(5, 100)], [], [], 7, [],
        [("k", ValueType.typeValueHandle, ValueHandle.encode ⟨5, 0, 8⟩)],
        6, false, 0, .ok, 9⟩
      ⟨fun _ => none, true, none, none, true⟩ ⟨50, 50⟩ 5
      ⟨2, 200, 1, 100, [("k", [1], ⟨5, 0, 8⟩)]⟩
      = some (.ok,
        [.newVlogFile 8, .appendBatch 8, .fileSync 8, .builderFinish 8,
          .fileClose 8, .registerRO 8, .lsmWrite 0, .lsmSync,
          .versionEdit ⟨[(8, 8)], [(5, 9)]⟩],
        ⟨[(5, 100), (8, 8)], [(5, 9)], [8], 8, [⟨[(8, 8)], [(5, 9)]⟩],
          [("k", ValueType.typeValueHandle, [8, 0, 0, 0, 0, 8, 0, 0, 0]),
            ("k", ValueType.typeValueHandle, [5, 0, 0, 0, 0, 8, 0, 0, 0])],
          6, false, 0, .ok, 9⟩)
    ∧ 8 ∈ (⟨[(5, 100), (8, 8)], [(5, 9)], [8], 8, [⟨[(8, 8)], [(5, 9)]⟩],
          [("k", ValueType.typeValueHandle, [8, 0, 0, 0, 0, 8, 0, 0, 0]),
            ("k", ValueType.typeValueHandle, [5, 0, 0, 0, 0, 8, 0, 0, 0])],
          6, false, 0, .ok, 9⟩ : GCRunState).pendingOutputs :=
  ⟨rfl,
    pending_outputs_persist
      ⟨[(5, 100)], [], [], 7, [],
        [("k", ValueType.typeValueHandle, ValueHandle.encode ⟨5, 0, 8⟩)],
        6, false, 0, .ok, 9⟩
      ⟨fun _ => none, true, none, none, true⟩ ⟨50, 50⟩ 5
      ⟨2, 200, 1, 100, [("k", [1], ⟨5, 0, 8⟩)]⟩
      (by decide) (by decide) (by decide) (by decide) rfl
      .ok
      [.newVlogFile 8, .appendBatch 8, .fileSync 8, .builderFinish 8,
        .fileClose 8, .registerRO 8, .lsmWrite 0, .lsmSync,
        .versionEdit ⟨[(8, 8)], [(5, 9)]⟩]
      ⟨[(5, 100), (8, 8)], [(5, 9)], [8], 8, [⟨[(8, 8)], [(5, 9)]⟩],
        [("k", ValueType.typeValueHandle, [8, 0, 0, 0, 0, 8, 0, 0, 0]),
          ("k", ValueType.typeValueHandle, [5, 0, 0, 0, 0, 8, 0, 0, 0])],
        6, false, 0, .ok, 9⟩
      rfl⟩

theorem backgroundGCM_bgError (st : GCRunState) (env : GCEnv) (opts : GCOptions)
    (e : Status) :
    BackgroundGCM { st with bgError := e } env opts = BackgroundGCM st env opts := by
  obtain ⟨ro, ob, po, vn, ce, lsmv, gp, mg, mn, be, ls⟩ := st
  unfold BackgroundGCM
  dsimp only
  cases mg with
  | false =>
    simp only [Bool.false_eq_true, if_false]
    cases hp : pickGCFrom ro ob gp with
    | none => rfl
    | some m =>
      dsimp only
      rw [show CollectM ⟨ro, ob, po, vn, ce, lsmv, m + 1, false, mn, e, ls⟩ env m
          = CollectM ⟨ro, ob, po, vn, ce, lsmv, m + 1, false, mn, be, ls⟩ env m from rfl]
      split
      · rfl
      · rw [show (⟨ro, ob, po, vn, ce, lsmv, m + 1, false, mn, e, ls⟩ : GCRunState)
            = { (⟨ro, ob, po, vn, ce, lsmv, m + 1, false, mn, be, ls⟩ : GCRunState)
                with bgError := e } from rfl,
          rewriteM_bgError]
        cases RewriteM ⟨ro, ob, po, vn, ce, lsmv, m + 1, false, mn, be, ls⟩ env opts m
            (CollectM ⟨ro, ob, po, vn, ce, lsmv, m + 1, false, mn, be, ls⟩ env m).2 with
        | none => rfl
        | some r => rfl
  | true =>
    simp only [eq_self_iff_true, if_true]
    cases hp : pickGCFrom ro ob mn with
    | none => rfl
    | some m =>
      dsimp only
      rw [show CollectM ⟨ro, ob, po, vn, ce, lsmv, gp, false, mn, e, ls⟩ env m
          = CollectM ⟨ro, ob, po, vn, ce, lsmv, gp, false, mn, be, ls⟩ env m from rfl]
      split
      · rfl
      · rw [show (⟨ro, ob, po, vn, ce, lsmv, gp, false, mn, e, ls⟩ : GCRunState)
            = { (⟨ro, ob, po, vn, ce, lsmv, gp, false, mn, be, ls⟩ : GCRunState)
                with bgError := e } from rfl,
          rewriteM_bgError]
        cases RewriteM ⟨ro, ob, po, vn, ce, lsmv, gp, false, mn, be, ls⟩ env opts m
            (CollectM ⟨ro, ob, po, vn, ce, lsmv, gp, false, mn, be, ls⟩ env m).2 with
        | none => rfl
        | some r => rfl

/-- Claim C10.  After every completed GC run, `bg_error_` holds exactly the status
of that most recent run: the run's stored error equals its final status,
the outcome is independent of whatever `bg_error_` held before — each run
unconditionally overwrites it, so a later successful run clears an earlier
non-fatal error — and an empty pick records NonFatal. -/
theorem bg_error_records_last_run (st : GCRunState) (env : GCEnv) (opts : GCOptions)
    (e s : Status) (st' : GCRunState)
    (h : BackgroundGCM st env opts = some (s, st')) :
    st'.bgError = s
    ∧ BackgroundGCM { st with bgError := e } env opts = some (s, st')
    ∧ (pickGCFrom st.roFiles st.obsoleteFiles
          (if st.manualGC then st.manualGCNumber else st.gcPointer) = none →
        s = .nonFatal) := by
  refine ⟨?_, (backgroundGCM_bgError st env opts e).trans h, ?_⟩
  · obtain ⟨ro, ob, po, vn, ce, lsmv, gp, mg, mn, be, ls⟩ := st
    unfold BackgroundGCM at h
    dsimp only at h
    cases mg with
    | false =>
      simp only [Bool.false_eq_true, if_false] at h
      cases hp : pickGCFrom ro ob gp with
      | none => rw [hp] at h; cases h; rfl
      | some m =>
        rw [hp] at h
        dsimp only at h
        split at h
        · cases h; rfl
        · split at h
          · exact Option.noConfusion h
          · cases h; rfl
    | true =>
      simp only [eq_self_iff_true, if_true] at h
      cases hp : pickGCFrom ro ob mn with
      | none => rw [hp] at h; cases h; rfl
      | some m =>
        rw [hp] at h
        dsimp only at h
        split at h
        · cases h; rfl
        · split at h
          · exact Option.noConfusion h
          · cases h; rfl
  · intro hnone
    obtain ⟨ro, ob, po, vn, ce, lsmv, gp, mg, mn, be, ls⟩ := st
    unfold BackgroundGCM at h
    dsimp only at h hnone
    cases mg with
    | false =>
      simp only [Bool.false_eq_true, if_false] at h hnone
      rw [hnone] at h
      cases h
      rfl
    | true =>
      simp only [eq_self_iff_true, if_true] at h hnone
      rw [hnone] at h
      cases h
      rfl

/-- Claim C10, witness: a run over an empty file set (empty pick) overwrites a
previously latched NonFatal error with the new run's NonFatal status,
regardless of the prior value. -/
theorem bg_error_records_last_run_witness :
    (⟨[], [], [], 3, [], [], 0, false, 0, Status.nonFatal, 0⟩ : GCRunState).bgError
        = Status.nonFatal
    ∧ BackgroundGCM ⟨[], [], [], 3, [], [], 0, false, 0, Status.nonFatal, 0⟩
        ⟨fun _ => none, true, none, none, true⟩ ⟨50, 50⟩
        = some (.nonFatal, ⟨[], [], [], 3, [], [], 0, false, 0, Status.nonFatal, 0⟩)
    ∧ (pickGCFrom [] [] 0 = none → Status.nonFatal = Status.nonFatal) :=
  bg_error_records_last_run ⟨[], [], [], 3, [], [], 0, false, 0, .ok, 0⟩
    ⟨fun _ => none, true, none, none, true⟩ ⟨50, 50⟩ .nonFatal .nonFatal
    ⟨[], [], [], 3, [], [], 0, false, 0, Status.nonFatal, 0⟩ rfl

end Wisckey
